import Mathlib

/-!
Verification of the planning-with-files operator scripts.

This file gives a shallow embedding of the two Python scripts of the
repository, session-catchup.py and sync-ide-folders.py, and proves the
stated properties about them.

Modelling conventions:
- Python strings are modelled as List Char.
- JSON values (the result of json.loads on one log line) are modelled by
  the inductive type JVal.  Python dict lookup via .get is modelled by
  pyGetD and pyGet; calling .get on a non-dict value raises
  AttributeError in Python, which is modelled by the error case of
  Except Unit.  The scripts wrap their scanning loops in a bare
  try/except that swallows any exception, so an error aborts the loop
  and the partial result accumulated so far is returned; this is
  modelled explicitly.
- A line of a session log file carries its raw text and its parse
  result (none when json.loads rejects it) as separate data: json.loads
  accepts many renderings of the same value (escape sequences such as
  \u0057 for W among them), so the raw text the substring pre-filter
  sees is not determined by the parsed value.  Every real file is
  representable by its raw line texts paired with their actual parse
  results, so theorems quantified over all lines cover all real files.
  Each concrete example line below uses a raw text that genuinely
  parses to the stated value: the canonical serialization mostly, and
  one escaped rendering where the distinction matters.
- The filesystem seen by the sync tool is a structure World: a partial
  map from path to file content plus a directory-existence predicate.
  SHA-256 digests are modelled by file content itself, which identifies
  digest equality with content equality (collision freedom), and the
  Python truthiness of a digest string (always a nonempty hex string
  when present) with presence of the file.
-/

/-! ## Basic string utilities (Python str operations) -/

/-- Python s.startswith(pat): pat is a prefix of s.  First argument is
the pattern. -/
def isPrefixB : List Char → List Char → Bool
  | [], _ => true
  | _ :: _, [] => false
  | a :: as, b :: bs => a == b && isPrefixB as bs

/-- Python substring test (pat in s). -/
def containsB (pat : List Char) : List Char → Bool
  | [] => isPrefixB pat []
  | c :: t => isPrefixB pat (c :: t) || containsB pat t

/-- Python s.endswith(pat). -/
def endsWithB (s pat : List Char) : Bool :=
  isPrefixB pat.reverse s.reverse

/-- Python s.startswith((p1, p2, ...)). -/
def startsWithAnyB (s : List Char) (pats : List (List Char)) : Bool :=
  pats.any (fun p => isPrefixB p s)

/-- Python s.replace(a, b) for single characters a, b. -/
def replaceChar (a b : Char) (s : List Char) : List Char :=
  s.map (fun c => if c == a then b else c)

/-- Lexicographic order on strings by code point, as Python sorted()
uses for str keys. -/
def lexLe : List Char → List Char → Bool
  | [], _ => true
  | _ :: _, [] => false
  | a :: as, b :: bs => if a == b then lexLe as bs else decide (a < b)

/-! ## JSON values and Python dict semantics -/

/-- A JSON value, the result of json.loads on one line.  Numbers are
modelled as integers; no claim depends on float behaviour. -/
inductive JVal where
  | jnull
  | jbool (b : Bool)
  | jnum (n : Int)
  | jstr (s : List Char)
  | jarr (elems : List JVal)
  | jobj (fields : List (List Char × JVal))

/-- Last binding of a key in an object field list.  json.loads builds
dicts left to right, later duplicate keys overwriting earlier ones, so
lookup returns the last binding. -/
def lookupLast (fs : List (List Char × JVal)) (k : List Char) : Option JVal :=
  match fs with
  | [] => none
  | (k', v) :: rest =>
    match lookupLast rest k with
    | some r => some r
    | none => if k' == k then some v else none

/-- Python o.get(k, d): returns the binding or the default when o is a
dict, raises AttributeError (the error case) otherwise. -/
def pyGetD (o : JVal) (k : List Char) (d : JVal) : Except Unit JVal :=
  match o with
  | .jobj fs => .ok ((lookupLast fs k).getD d)
  | _ => .error ()

/-- Python o.get(k) with no default (missing key gives None). -/
def pyGet (o : JVal) (k : List Char) : Except Unit JVal :=
  pyGetD o k .jnull

/-- Total variant of dict lookup used in specification-side
definitions: non-dicts and missing keys give the default. -/
def jgetD (o : JVal) (k : List Char) (d : JVal) : JVal :=
  match o with
  | .jobj fs => (lookupLast fs k).getD d
  | _ => d

/-- Python equality test between a JSON value and a string literal
(v == "s"): true exactly when v is that string. -/
def jvalEqStr (v : JVal) (s : List Char) : Bool :=
  match v with
  | .jstr t => t == s
  | _ => false

/-- Python truthiness of a JSON value. -/
def pyTruthy (v : JVal) : Bool :=
  match v with
  | .jnull => false
  | .jbool b => b
  | .jnum n => n != 0
  | .jstr s => !s.isEmpty
  | .jarr xs => !xs.isEmpty
  | .jobj fs => !fs.isEmpty

/-- Python v[:k]: slicing is defined on strings and lists and raises
TypeError on other values. -/
def pySlice (k : Nat) (v : JVal) : Except Unit JVal :=
  match v with
  | .jstr s => .ok (.jstr (s.take k))
  | .jarr xs => .ok (.jarr (xs.take k))
  | _ => .error ()

-- Python str() of a value, as used by f-string interpolation.  For
-- container values the repr is simplified (quote escaping inside repr
-- is elided); no claim depends on the repr of non-string values.
mutual
def pyStr : JVal → List Char
  | .jstr s => s
  | v => pyRepr v

def pyRepr : JVal → List Char
  | .jnull => "None".data
  | .jbool true => "True".data
  | .jbool false => "False".data
  | .jnum n => (toString n).data
  | .jstr s => '\'' :: s ++ ['\'']
  | .jarr xs => '[' :: pyReprArr xs ++ [']']
  | .jobj fs => '\x7b' :: pyReprObj fs ++ ['\x7d']

def pyReprArr : List JVal → List Char
  | [] => []
  | [x] => pyRepr x
  | x :: y :: xs => pyRepr x ++ ',' :: ' ' :: pyReprArr (y :: xs)

def pyReprObj : List (List Char × JVal) → List Char
  | [] => []
  | [(k, v)] => '\'' :: k ++ '\'' :: ':' :: ' ' :: pyRepr v
  | (k, v) :: f :: fs =>
    ('\'' :: k ++ '\'' :: ':' :: ' ' :: pyRepr v) ++ ',' :: ' ' :: pyReprObj (f :: fs)
end

/-! ## JSON serialization

The log files are written by the assistant process as one serialized
JSON object per line.  The serializer below produces the canonical
compact form; a parsed line is represented together with its canonical
text through this function. -/

/-- JSON string escaping for one character. -/
def escChar (c : Char) : List Char :=
  if c = '"' then ['\\', '"']
  else if c = '\\' then ['\\', '\\']
  else if c = '\n' then ['\\', 'n']
  else if c = '\t' then ['\\', 't']
  else if c = '\r' then ['\\', 'r']
  else [c]

def escString (s : List Char) : List Char := s.flatMap escChar

/-- Serialized JSON string literal: quote, escaped body, quote. -/
def serStr (s : List Char) : List Char := '"' :: escString s ++ ['"']

mutual
/-- Compact JSON serialization of a value. -/
def serialize : JVal → List Char
  | .jnull => "null".data
  | .jbool true => "true".data
  | .jbool false => "false".data
  | .jnum n => (toString n).data
  | .jstr s => serStr s
  | .jarr xs => '[' :: serArr xs ++ [']']
  | .jobj fs => '\x7b' :: serObj fs ++ ['\x7d']

/-- Serialized array elements, comma separated. -/
def serArr : List JVal → List Char
  | [] => []
  | [x] => serialize x
  | x :: y :: xs => serialize x ++ ',' :: serArr (y :: xs)

/-- Serialized object fields, comma separated. -/
def serObj : List (List Char × JVal) → List Char
  | [] => []
  | [(k, v)] => serStr k ++ ':' :: serialize v
  | (k, v) :: f :: fs => (serStr k ++ ':' :: serialize v) ++ ',' :: serObj (f :: fs)
end

/-- One line of a session log file: the raw text of the line together
with its parse result, none when json.loads rejects the line.  The two
are carried independently, because json.loads accepts distinct raw
renderings of the same value (for instance with \u0057 escape
sequences), and the substring pre-filter of the scanner sees only the
raw text. -/
structure Line where
  raw : List Char
  parsed : Option JVal

/-- The raw text of a line, as seen by substring pre-filters. -/
def lineRaw (l : Line) : List Char := l.raw

/-- A line rendered canonically: the raw text is the compact
serialization of the parsed value. -/
def mkLine (r : JVal) : Line := ⟨serialize r, some r⟩

/-- A line that json.loads rejects. -/
def badLine (raw : List Char) : Line := ⟨raw, none⟩

/-- A session log file: the stem of its file name (name without
extension) and its content, none when the file cannot be read. -/
structure Session where
  stem : List Char
  content : Option (List Line)

/-! ## session-catchup.py: the Session Scanner -/

/-- The three recognized planning file names. -/
def PLANNING_FILES : List (List Char) :=
  ["task_plan.md".data, "progress.md".data, "findings.md".data]

/-- Processing of one content item inside scan_for_planning_update.
Given the accumulator (the match recorded so far within the line),
returns the new accumulator, or an error when the Python code would
raise (calling .get on a non-dict, or .endswith on a non-string). -/
def scanItem (it : JVal) (acc : Option (List Char)) :
    Except Unit (Option (List Char)) :=
  match pyGet it "type".data with
  | .error e => .error e
  | .ok t =>
    if !jvalEqStr t "tool_use".data then .ok acc
    else
      match pyGetD it "name".data (.jstr []) with
      | .error e => .error e
      | .ok name =>
        if !(jvalEqStr name "Write".data || jvalEqStr name "Edit".data) then .ok acc
        else
          match pyGetD it "input".data (.jobj []) with
          | .error e => .error e
          | .ok inp =>
            match pyGetD inp "file_path".data (.jstr []) with
            | .error e => .error e
            | .ok (.jstr s) =>
              .ok ((PLANNING_FILES.find? (fun pf => endsWithB s pf)).or acc)
            | .ok _ => .error ()

/-- The item loop of scan_for_planning_update.  An exception raised on
some item aborts the loop; the error value carries the accumulator at
the moment of the raise, since earlier items of the same line may have
already recorded a match. -/
def scanItems : List JVal → Option (List Char) →
    Except (Option (List Char)) (Option (List Char))
  | [], acc => .ok acc
  | it :: rest, acc =>
    match scanItem it acc with
    | .error _ => .error acc
    | .ok acc' => scanItems rest acc'

/-- Processing of one parsed record in scan_for_planning_update: the
type check, the message.content navigation, the isinstance(content,
list) check and the item loop. -/
def recordScan (r : JVal) : Except (Option (List Char)) (Option (List Char)) :=
  match pyGet r "type".data with
  | .error _ => .error none
  | .ok t =>
    if !jvalEqStr t "assistant".data then .ok none
    else
      match pyGetD r "message".data (.jobj []) with
      | .error _ => .error none
      | .ok m =>
        match pyGetD m "content".data (.jarr []) with
        | .error _ => .error none
        | .ok (.jarr items) => scanItems items none
        | .ok _ => .ok none

/-- Per-line result of the scanner after json.loads: a line that fails
to parse is skipped (json.JSONDecodeError is caught and the loop
continues), a parsed record is processed by recordScan. -/
def lineResult (l : Line) :
    Except (Option (List Char)) (Option (List Char)) :=
  match l.parsed with
  | none => .ok none
  | some r => recordScan r

/-- Folding a per-line match into the scanner state
(last_update_line, last_update_file). -/
def applySt (st : Int × Option (List Char)) (n : Nat) (acc : Option (List Char)) :
    Int × Option (List Char) :=
  match acc with
  | none => st
  | some pf => ((n : Int), some pf)

/-- Marker pre-filter of the scanner: the line is skipped unless its
raw text contains the substring "Write" or "Edit", both in double
quotes. -/
def hasMarker (raw : List Char) : Bool :=
  containsB "\"Write\"".data raw || containsB "\"Edit\"".data raw

/-- The scanner loop over lines.  Lines failing the pre-filter are
skipped without parsing.  An exception raised while processing a line
aborts the whole loop (the enclosing bare except swallows it) and the
state reached so far is returned. -/
def scanGo : Nat → (Int × Option (List Char)) → List Line →
    Int × Option (List Char)
  | _, st, [] => st
  | n, st, l :: ls =>
    if !hasMarker (lineRaw l) then scanGo (n + 1) st ls
    else
      match lineResult l with
      | .error acc => applySt st n acc
      | .ok acc => scanGo (n + 1) (applySt st n acc) ls

/-- scan_for_planning_update: returns (line index, filename) of the
last planning file update, or (-1, none).  An unreadable file gives
(-1, none) via the enclosing bare except. -/
def scan_for_planning_update (s : Session) : Int × Option (List Char) :=
  match s.content with
  | none => (-1, none)
  | some ls => scanGo 0 (-1, none) ls

/-- The scanner loop without the substring pre-filter: identical to
scanGo except that every line is parsed.  This is the comparison
object of the refinement claim about the pre-filter. -/
def scanGoNF : Nat → (Int × Option (List Char)) → List Line →
    Int × Option (List Char)
  | _, st, [] => st
  | n, st, l :: ls =>
    match lineResult l with
    | .error acc => applySt st n acc
    | .ok acc => scanGoNF (n + 1) (applySt st n acc) ls

/-- scan_for_planning_update with the pre-filter removed. -/
def scanNoFilter (s : Session) : Int × Option (List Char) :=
  match s.content with
  | none => (-1, none)
  | some ls => scanGoNF 0 (-1, none) ls

/-! ## session-catchup.py: the Message Extractor -/

/-- An extracted catchup message.  User records store their text
content; assistant records store the (possibly sliced) content value
and the tool descriptor strings. -/
inductive Msg where
  | user (content : List Char) (line : Nat) (session : List Char)
  | assistant (content : JVal) (tools : List (List Char)) (line : Nat)
      (session : List Char)

/-- The system-marker prefixes that cause a user record to be
dropped. -/
def sysMarkers : List (List Char) :=
  ["<local-command".data, "<command-".data, "<task-notification".data]

/-- The content extraction of the user branch: message.content is
fetched (raising on non-dict navigation); when it is a list, the first
dict item of type text supplies the text (for-else gives the empty
string when no such item exists). -/
def userContentVal (r : JVal) : Except Unit JVal :=
  match pyGetD r "message".data (.jobj []) with
  | .error e => .error e
  | .ok m =>
    match pyGetD m "content".data (.jstr []) with
    | .error e => .error e
    | .ok (.jarr items) =>
      match items.find? (fun it =>
          match it with
          | .jobj _ => jvalEqStr (jgetD it "type".data .jnull) "text".data
          | _ => false) with
      | some it => .ok (jgetD it "text".data (.jstr []))
      | none => .ok (.jstr [])
    | .ok other => .ok other

/-- The item loop of the assistant branch: text items overwrite the
text (last one wins), tool_use items append a rendered descriptor.
Raises when an item is not a dict, when a tool input is not a dict, or
when a Bash command value is not sliceable. -/
def assistantItems : List JVal → JVal → List (List Char) →
    Except Unit (JVal × List (List Char))
  | [], text, tools => .ok (text, tools)
  | it :: rest, text, tools =>
    match pyGet it "type".data with
    | .error e => .error e
    | .ok t =>
      if jvalEqStr t "text".data then
        match pyGetD it "text".data (.jstr []) with
        | .error e => .error e
        | .ok tv => assistantItems rest tv tools
      else if jvalEqStr t "tool_use".data then
        match pyGetD it "name".data (.jstr []) with
        | .error e => .error e
        | .ok name =>
          match pyGetD it "input".data (.jobj []) with
          | .error e => .error e
          | .ok inp =>
            if jvalEqStr name "Edit".data then
              match pyGetD inp "file_path".data (.jstr "unknown".data) with
              | .error e => .error e
              | .ok fp => assistantItems rest text (tools ++ ["Edit: ".data ++ pyStr fp])
            else if jvalEqStr name "Write".data then
              match pyGetD inp "file_path".data (.jstr "unknown".data) with
              | .error e => .error e
              | .ok fp => assistantItems rest text (tools ++ ["Write: ".data ++ pyStr fp])
            else if jvalEqStr name "Bash".data then
              match pyGetD inp "command".data (.jstr []) with
              | .error e => .error e
              | .ok cmd0 =>
                match pySlice 80 cmd0 with
                | .error e => .error e
                | .ok cmd => assistantItems rest text (tools ++ ["Bash: ".data ++ pyStr cmd])
            else if jvalEqStr name "AskUserQuestion".data then
              assistantItems rest text (tools ++ ["AskUserQuestion".data])
            else
              assistantItems rest text (tools ++ [pyStr name])
      else
        assistantItems rest text tools

/-- Final message assembly of the assistant branch: a record with
neither truthy text nor tools is dropped; otherwise the text is sliced
to 600 (raising when it is truthy but not sliceable). -/
def assistantFinish (text : JVal) (tools : List (List Char)) (n : Nat)
    (stem8 : List Char) : Except Unit (Option Msg) :=
  if pyTruthy text || !tools.isEmpty then
    match (if pyTruthy text then pySlice 600 text else .ok (.jstr [])) with
    | .error e => .error e
    | .ok c => .ok (some (.assistant c tools n stem8))
  else
    .ok none

/-- Processing of one parsed record in extract_messages_from_session.
Returns the message the line contributes (none when the record is
dropped), or an error when the Python code would raise; a raise aborts
the whole extraction loop. -/
def extractRecord (stem8 : List Char) (n : Nat) (r : JVal) :
    Except Unit (Option Msg) :=
  match pyGet r "type".data with
  | .error e => .error e
  | .ok t =>
    match pyGetD r "isMeta".data (.jbool false) with
    | .error e => .error e
    | .ok meta =>
      if jvalEqStr t "user".data && !pyTruthy meta then
        match userContentVal r with
        | .error e => .error e
        | .ok (.jstr s) =>
          if !s.isEmpty then
            if startsWithAnyB s sysMarkers then .ok none
            else if 20 < s.length then .ok (some (.user s n stem8))
            else .ok none
          else .ok none
        | .ok _ => .ok none
      else if jvalEqStr t "assistant".data then
        match pyGetD r "message".data (.jobj []) with
        | .error e => .error e
        | .ok m =>
          match pyGetD m "content".data (.jstr []) with
          | .error e => .error e
          | .ok (.jstr s) => assistantFinish (.jstr s) [] n stem8
          | .ok (.jarr items) =>
            match assistantItems items (.jstr []) [] with
            | .error e => .error e
            | .ok p => assistantFinish p.1 p.2 n stem8
          | .ok _ => assistantFinish (.jstr []) [] n stem8
      else
        .ok none

/-- Per-line result of the extractor: unparsable lines are skipped. -/
def extractLine (stem8 : List Char) (n : Nat) (l : Line) :
    Except Unit (Option Msg) :=
  match l.parsed with
  | none => .ok none
  | some r => extractRecord stem8 n r

/-- The extractor loop: lines at index at most after_line are skipped
when after_line is nonnegative; an exception aborts the loop and the
messages collected so far are returned. -/
def extractGo (stem8 : List Char) (after : Int) : Nat → List Line → List Msg
  | _, [] => []
  | n, l :: ls =>
    if 0 ≤ after ∧ (n : Int) ≤ after then extractGo stem8 after (n + 1) ls
    else
      match extractLine stem8 n l with
      | .error _ => []
      | .ok none => extractGo stem8 after (n + 1) ls
      | .ok (some m) => m :: extractGo stem8 after (n + 1) ls

/-- extract_messages_from_session: all messages after the given line
index (all messages when the index is negative); an unreadable file
gives the empty list. -/
def extract_messages_from_session (s : Session) (after : Int) : List Msg :=
  match s.content with
  | none => []
  | some ls => extractGo (s.stem.take 8) after 0 ls

/-! ## session-catchup.py: Log Locator name transformation -/

/-- get_project_dir_claude, restricted to the directory name it
computes under the projects root: replace "/" by "-", ensure a leading
"-", then replace "_" by "-". -/
def get_project_dir_claude (p : List Char) : List Char :=
  let s1 := replaceChar '/' '-' p
  let s2 := if isPrefixB "-".data s1 then s1 else '-' :: s1
  replaceChar '_' '-' s2

/-! ## session-catchup.py: Catchup Reporter orchestration -/

/-- The scanning loop of main over the previous sessions (newest
first): index, session, line and filename of the first session that
reports a planning update. -/
def findUpdate : List Session → Option (Nat × Session × Int × Option (List Char))
  | [] => none
  | s :: rest =>
    let r := scan_for_planning_update s
    if 0 ≤ r.1 then some (0, s, r.1, r.2)
    else (findUpdate rest).map (fun x => (x.1 + 1, x.2))

/-- The message collection phase of main: tail of the marker session
after the marker line, then every strictly newer previous session in
full, replayed oldest to newest.  none when no previous session
reports a planning update. -/
def collectUnsynced (previous : List Session) : Option (List Msg) :=
  (findUpdate previous).map (fun u =>
    extract_messages_from_session u.2.1 u.2.2.1 ++
      ((previous.take u.1).reverse).flatMap
        (fun s => extract_messages_from_session s (-1)))

/-! ## sync-ide-folders.py: manifests -/

/-- Canonical source root. -/
def CANONICAL : List Char := "skills/planning-with-files".data

def TEMPLATES : List (List Char) :=
  ["templates/findings.md".data, "templates/progress.md".data,
   "templates/task_plan.md".data]

def REFERENCES : List (List Char) :=
  ["examples.md".data, "reference.md".data]

def SCRIPTS : List (List Char) :=
  ["scripts/check-complete.sh".data, "scripts/check-complete.ps1".data,
   "scripts/init-session.sh".data, "scripts/init-session.ps1".data,
   "scripts/session-catchup.py".data]

/-- Trailing slash normalization of pathlib: a path component keeps no
trailing separator. -/
def dropTrailingSlashes (s : List Char) : List Char :=
  (s.reverse.dropWhile (fun c => c == '/')).reverse

/-- str(Path(a) / b) for the relative components used here. -/
def joinP (a b : List Char) : List Char :=
  a ++ '/' :: dropTrailingSlashes b

/-- Python Path(p).name: the part after the last slash. -/
def pathName (p : List Char) : List Char :=
  ((p.reverse.takeWhile (fun c => !(c == '/'))).reverse)

/-- Insertion into a Python dict modelled as an association list:
an existing key keeps its position and its value is replaced, a new
key is appended. -/
def dictInsert (m : List (List Char × List Char)) (k v : List Char) :
    List (List Char × List Char) :=
  if m.any (fun e => e.1 == k) then
    m.map (fun e => if e.1 == k then (k, v) else e)
  else m ++ [(k, v)]

def dictInsertMany (m : List (List Char × List Char))
    (xs : List (List Char × List Char)) : List (List Char × List Char) :=
  xs.foldl (fun acc e => dictInsert acc e.1 e.2) m

/-- Reference placement style of a target folder. -/
inductive RefStyle where
  | flat
  | subdir
  | skip

/-- _build_manifest: the canonical-source to destination mapping of one
IDE folder, built from its configuration. -/
def buildManifest (base : List Char) (refStyle : RefStyle)
    (templateDirs : Option (List (List Char)))
    (includeScripts : Bool)
    (extraTemplateDirs : Option (List (List Char))) :
    List (List Char × List Char) :=
  let tdirs := templateDirs.getD ["templates/".data]
  let m1 := dictInsertMany []
    (tdirs.flatMap (fun tdir =>
      TEMPLATES.map (fun t => (t, joinP (joinP base tdir) (pathName t)))))
  let m2 := dictInsertMany m1
    ((extraTemplateDirs.getD []).flatMap (fun tdir =>
      TEMPLATES.map (fun t =>
        (t ++ "__extra_".data ++ tdir, joinP (joinP base tdir) (pathName t)))))
  let m3 :=
    match refStyle with
    | .flat => dictInsertMany m2 (REFERENCES.map (fun r => (r, joinP base r)))
    | .subdir => dictInsertMany m2
        (REFERENCES.map (fun r => (r, joinP (joinP base "references".data) r)))
    | .skip => m2
  if includeScripts then
    dictInsertMany m3 (SCRIPTS.map (fun s => (s, joinP base s)))
  else m3

/-- IDE_MANIFESTS: the full table, in source order. -/
def IDE_MANIFESTS : List (List Char × List (List Char × List Char)) :=
  [ (".cursor".data,
     buildManifest ".cursor/skills/planning-with-files".data .flat none false none),
    (".gemini".data,
     buildManifest ".gemini/skills/planning-with-files".data .subdir none true none),
    (".codex".data,
     buildManifest ".codex/skills/planning-with-files".data .subdir none true
       (some ["assets/templates/".data])),
    (".openclaw".data,
     buildManifest ".openclaw/skills/planning-with-files".data .subdir none true none),
    (".kilocode".data,
     buildManifest ".kilocode/skills/planning-with-files".data .flat none false none),
    (".adal".data,
     buildManifest ".adal/skills/planning-with-files".data .subdir none true none),
    (".pi".data,
     buildManifest ".pi/skills/planning-with-files".data .flat none true none),
    (".continue".data,
     buildManifest ".continue/skills/planning-with-files".data .flat (some []) true none),
    (".codebuddy".data,
     buildManifest ".codebuddy/skills/planning-with-files".data .subdir none true
       (some ["assets/templates/".data])),
    (".factory".data,
     buildManifest ".factory/skills/planning-with-files".data .skip none false none),
    (".agent".data,
     buildManifest ".agent/skills/planning-with-files".data .skip (some []) false none),
    (".opencode".data,
     buildManifest ".opencode/skills/planning-with-files".data .flat none false none),
    (".kiro".data,
     [("scripts/check-complete.sh".data, ".kiro/scripts/check-complete.sh".data),
      ("scripts/check-complete.ps1".data, ".kiro/scripts/check-complete.ps1".data),
      ("scripts/init-session.sh".data, ".kiro/scripts/init-session.sh".data),
      ("scripts/init-session.ps1".data, ".kiro/scripts/init-session.ps1".data)]) ]

/-! ## sync-ide-folders.py: execution -/

/-- The filesystem as the sync tool sees it: file contents by path and
directory existence by path.  Directory creation during a sync is not
tracked in dirs: the tool only queries dirs for the canonical root and
the IDE roots, and it only writes below roots it has already found to
exist, so no query result could change during one run. -/
structure World where
  files : List Char → Option (List Char)
  dirs : List Char → Bool

/-- file_hash: SHA-256 digest of a file, none when it does not exist.
Digests are modelled by content (collision freedom). -/
def file_hash (w : World) (p : List Char) : Option (List Char) :=
  w.files p

/-- Key prefix before the first "__extra_" tag, as key.split("__extra_")[0]
computes. -/
def splitExtra : List Char → List Char
  | [] => []
  | c :: rest =>
    if isPrefixB "__extra_".data (c :: rest) then []
    else c :: splitExtra rest

/-- Canonical source path of a manifest key. -/
def srcOfKey (k : List Char) : List Char :=
  joinP CANONICAL (splitExtra k)

inductive SyncAction where
  | updated
  | created
  | skipped
  | missing_src
  deriving DecidableEq

/-- sync_file: compares hashes and copies when different; in dry-run
mode the comparison is identical but nothing is written. -/
def sync_file (w : World) (src dst : List Char) (dryRun : Bool) :
    SyncAction × World :=
  if (w.files src).isNone then (.missing_src, w)
  else
    let srcH := file_hash w src
    let dstH := file_hash w dst
    if srcH == dstH then (.skipped, w)
    else
      let a := if dstH.isNone then SyncAction.created else SyncAction.updated
      if dryRun then (a, w)
      else (a, ⟨fun p => if p == dst then srcH else w.files p, w.dirs⟩)

/-- A drift report line of verify mode. -/
inductive Report where
  | drift (dst : List Char)
  | missing (dst : List Char)

/-- Verify mode handling of one manifest entry: a report (and a drift
count increment) exactly when source and destination both exist with
different hashes, or the source exists and the destination does not. -/
def verifyEntry (w : World) (e : List Char × List Char) : Option Report :=
  let srcH := file_hash w (srcOfKey e.1)
  let dstH := file_hash w e.2
  if srcH.isSome && dstH.isSome && srcH != dstH then some (.drift e.2)
  else if srcH.isSome && !dstH.isSome then some (.missing e.2)
  else none

/-- Run statistics and verify reports. -/
structure Stats where
  updated : Nat
  created : Nat
  skipped : Nat
  missing_src : Nat
  drift : Nat
  reports : List Report

def stats0 : Stats := ⟨0, 0, 0, 0, 0, []⟩

def Stats.bump (st : Stats) (a : SyncAction) : Stats :=
  match a with
  | .updated => ⟨st.updated + 1, st.created, st.skipped, st.missing_src, st.drift, st.reports⟩
  | .created => ⟨st.updated, st.created + 1, st.skipped, st.missing_src, st.drift, st.reports⟩
  | .skipped => ⟨st.updated, st.created, st.skipped + 1, st.missing_src, st.drift, st.reports⟩
  | .missing_src => ⟨st.updated, st.created, st.skipped, st.missing_src + 1, st.drift, st.reports⟩

def Stats.addReport (st : Stats) (o : Option Report) : Stats :=
  match o with
  | none => st
  | some r => ⟨st.updated, st.created, st.skipped, st.missing_src, st.drift + 1,
      st.reports ++ [r]⟩

/-- Handling of one manifest entry in the main loop. -/
def runEntry (verify dryRun : Bool) (acc : World × Stats)
    (e : List Char × List Char) : World × Stats :=
  if verify then (acc.1, acc.2.addReport (verifyEntry acc.1 e))
  else
    let r := sync_file acc.1 (srcOfKey e.1) e.2 dryRun
    (r.2, acc.2.bump r.1)

/-- Handling of one IDE folder: entries are visited sorted by key. -/
def runFolder (verify dryRun : Bool) (acc : World × Stats)
    (m : List (List Char × List Char)) : World × Stats :=
  (List.insertionSort (fun x y => lexLe x.1 y.1 = true) m).foldl
    (runEntry verify dryRun) acc

/-- Outcome of a run of the sync tool. -/
structure RunOut where
  world : World
  exitCode : Nat
  stats : Stats

/-- main of sync-ide-folders.py: fatal when the canonical root is
missing; otherwise the folders are visited sorted by name, folders
whose root is missing are skipped; verify mode exits 1 exactly when
drift was counted, other modes exit 0. -/
def runAllFolders (dryRun verify : Bool) (w : World) : World × Stats :=
  (List.insertionSort (fun x y => lexLe x.1 y.1 = true) IDE_MANIFESTS).foldl
    (fun acc p => if acc.1.dirs p.1 then runFolder verify dryRun acc p.2 else acc)
    (w, stats0)

def mainRun (dryRun verify : Bool) (w : World) : RunOut :=
  if !w.dirs CANONICAL then ⟨w, 1, stats0⟩
  else
    let r := runAllFolders dryRun verify w
    if verify then
      if 0 < r.2.drift then ⟨r.1, 1, r.2⟩ else ⟨r.1, 0, r.2⟩
    else ⟨r.1, 0, r.2⟩

/-! ## Claim-side specification functions -/

/-- Claim-side matching of one content item: a tool_use item whose tool
name is Write or Edit and whose input file_path is a string ending in a
planning filename; the matched planning filename is returned (the
first of PLANNING_FILES that matches, as at most one can). -/
def itemPF (it : JVal) : Option (List Char) :=
  if jvalEqStr (jgetD it "type".data .jnull) "tool_use".data then
    let name := jgetD it "name".data (.jstr [])
    if jvalEqStr name "Write".data || jvalEqStr name "Edit".data then
      match jgetD (jgetD it "input".data (.jobj [])) "file_path".data (.jstr []) with
      | .jstr fp => PLANNING_FILES.find? (fun pf => endsWithB fp pf)
      | _ => none
    else none
  else none

/-- The content item list of a record, total navigation: empty when
the record is not of the expected shape. -/
def contentItems (r : JVal) : List JVal :=
  match jgetD (jgetD r "message".data (.jobj [])) "content".data (.jarr []) with
  | .jarr xs => xs
  | _ => []

/-- Claim-side matching of one record: an assistant record one of
whose content items matches; the filename is that of the last matching
item. -/
def recordMatchSpec (r : JVal) : Option (List Char) :=
  if jvalEqStr (jgetD r "type".data .jnull) "assistant".data then
    (contentItems r).reverse.findSome? itemPF
  else none

/-- Claim-side matching of one line. -/
def lineMatchSpec (l : Line) : Option (List Char) :=
  match l.parsed with
  | none => none
  | some r => recordMatchSpec r

/-- A line on which the substring pre-filter loses nothing: either the
record does not match, or the raw text contains a quoted tool-name
marker.  Canonically rendered lines always satisfy this
(prefilterComplete_mkLine below); raw renderings that escape the tool
name, such as \u0057rite for Write, do not. -/
def prefilterComplete (l : Line) : Bool :=
  (lineMatchSpec l).isNone || hasMarker (lineRaw l)

/-- Claim-side result of the scanner: index and filename of the last
matching line, or the (-1, none) sentinel. -/
def specLastMatch (lines : List Line) : Int × Option (List Char) :=
  match lines.enum.reverse.findSome?
      (fun p => (lineMatchSpec p.2).map (fun pf => (p.1, pf))) with
  | some q => ((q.1 : Int), some q.2)
  | none => (-1, none)

/-- A line whose full processing raises no Python exception. -/
def noAbortLine (l : Line) : Bool :=
  match lineResult l with
  | .ok _ => true
  | .error _ => false

/-- Claim-side drift count: over all manifest entries of folders whose
root exists, those whose canonical source exists while the destination
is missing or differs. -/
def specDriftCount (w : World) : Nat :=
  ((IDE_MANIFESTS.filter (fun p => w.dirs p.1)).flatMap (fun p => p.2)).countP
    (fun e => (w.files (srcOfKey e.1)).isSome &&
      (w.files e.2 != w.files (srcOfKey e.1)))

/-- The name transformation as the claim words it: replace "/" and "_"
by "-" in the input, then prefix "-" when the result does not already
start with "-". -/
def claimSanitize (p : List Char) : List Char :=
  let r := replaceChar '_' '-' (replaceChar '/' '-' p)
  if isPrefixB "-".data r then r else '-' :: r

/-- Pairwise distinctness of a list of strings. -/
def distinctB : List (List Char) → Bool
  | [] => true
  | x :: xs => !(xs.any (fun y => y == x)) && distinctB xs

/-! ## Helper lemmas: substring search -/

theorem isPrefixB_self_append (pat t : List Char) :
    isPrefixB pat (pat ++ t) = true := by
  induction pat with
  | nil => simp [isPrefixB]
  | cons a as ih => simpa [isPrefixB] using ih

theorem containsB_of_prefixB {pat s : List Char} (h : isPrefixB pat s = true) :
    containsB pat s = true := by
  cases s with
  | nil => simpa [containsB] using h
  | cons c t => simp [containsB, h]

theorem containsB_of_infix {pat s : List Char} (h : pat <:+: s) :
    containsB pat s = true := by
  obtain ⟨u, v, rfl⟩ := h
  induction u with
  | nil => exact containsB_of_prefixB (isPrefixB_self_append pat v)
  | cons c u ih =>
    rw [List.cons_append, List.cons_append, containsB]
    simp only [List.append_assoc] at ih ⊢
    simp [ih]

/-! ## Helper lemmas: serialization contains the serialized parts -/

theorem field_infix_serObj {k : List Char} {v : JVal}
    {fs : List (List Char × JVal)} (h : (k, v) ∈ fs) :
    serStr k ++ ':' :: serialize v <:+: serObj fs := by
  induction fs with
  | nil => cases h
  | cons f rest ih =>
    cases h with
    | head =>
      cases rest with
      | nil => exact List.infix_rfl
      | cons g gs =>
        exact (List.prefix_append (serStr k ++ ':' :: serialize v)
          (',' :: serObj (g :: gs))).isInfix
    | tail _ hmem =>
      cases rest with
      | nil => cases hmem
      | cons g gs =>
        refine (ih hmem).trans ?_
        refine ((List.suffix_append
          ((serStr f.1 ++ ':' :: serialize f.2) ++ [','])
          (serObj (g :: gs))).isInfix).trans ?_
        simp [serObj]

theorem elem_infix_serArr {x : JVal} {xs : List JVal} (h : x ∈ xs) :
    serialize x <:+: serArr xs := by
  induction xs with
  | nil => cases h
  | cons y rest ih =>
    cases h with
    | head =>
      cases rest with
      | nil => exact List.infix_rfl
      | cons g gs =>
        exact (List.prefix_append (serialize x) (',' :: serArr (g :: gs))).isInfix
    | tail _ hmem =>
      cases rest with
      | nil => cases hmem
      | cons g gs =>
        refine (ih hmem).trans ?_
        refine ((List.suffix_append (serialize y ++ [','])
          (serArr (g :: gs))).isInfix).trans ?_
        simp [serArr]

theorem serObj_infix_serialize (fs : List (List Char × JVal)) :
    serObj fs <:+: serialize (.jobj fs) :=
  ⟨['\x7b'], ['\x7d'], by simp [serialize]⟩

theorem serArr_infix_serialize (xs : List JVal) :
    serArr xs <:+: serialize (.jarr xs) :=
  ⟨['['], [']'], by simp [serialize]⟩

theorem serialize_infix_of_mem_obj {k : List Char} {v : JVal}
    {fs : List (List Char × JVal)} (h : (k, v) ∈ fs) :
    serialize v <:+: serialize (.jobj fs) :=
  ((List.suffix_append (serStr k ++ [':']) (serialize v)).isInfix.trans
    (by simpa using field_infix_serObj h)).trans (serObj_infix_serialize fs)

theorem serialize_infix_of_mem_arr {x : JVal} {xs : List JVal} (h : x ∈ xs) :
    serialize x <:+: serialize (.jarr xs) :=
  (elem_infix_serArr h).trans (serArr_infix_serialize xs)

theorem lookupLast_mem {fs : List (List Char × JVal)} {k : List Char} {v : JVal}
    (h : lookupLast fs k = some v) : (k, v) ∈ fs := by
  induction fs with
  | nil => simp [lookupLast] at h
  | cons f rest ih =>
    rw [lookupLast] at h
    rcases hr : lookupLast rest k with _ | r
    · rw [hr] at h
      by_cases hk : f.1 == k
      · rcases f with ⟨k', v'⟩
        simp only at hk
        rw [if_pos hk] at h
        obtain rfl : v' = v := by simpa using h
        obtain rfl : k' = k := by simpa using hk
        exact List.mem_cons_self _ _
      · rcases f with ⟨k', v'⟩
        simp only at hk
        rw [if_neg hk] at h
        cases h
    · rw [hr] at h
      obtain rfl : r = v := by simpa using h
      exact List.mem_cons_of_mem _ (ih hr)

theorem exists_of_findSome {α β : Type} {f : α → Option β} {l : List α} {b : β}
    (h : l.findSome? f = some b) : ∃ a ∈ l, f a = some b := by
  induction l with
  | nil => simp [List.findSome?_nil] at h
  | cons x xs ih =>
    rw [List.findSome?_cons] at h
    rcases hx : f x with _ | y
    · rw [hx] at h
      obtain ⟨a, ha, hfa⟩ := ih h
      exact ⟨a, List.mem_cons_of_mem _ ha, hfa⟩
    · rw [hx] at h
      cases h
      exact ⟨x, List.mem_cons_self _ _, hx⟩

/-- A content item recognized by the claim-side matcher has a quoted
Write or Edit tool name in its serialization. -/
theorem marker_infix_of_itemPF {it : JVal} {pf : List Char}
    (h : itemPF it = some pf) :
    "\"Write\"".data <:+: serialize it ∨ "\"Edit\"".data <:+: serialize it := by
  cases it with
  | jobj its =>
    rw [itemPF] at h
    by_cases ht : jvalEqStr (jgetD (JVal.jobj its) "type".data .jnull) "tool_use".data
    case neg => rw [if_neg ht] at h; cases h
    case pos =>
      rw [if_pos ht] at h
      rcases hn : lookupLast its "name".data with _ | nv
      · simp [jgetD, hn, jvalEqStr] at h
      · have hnv : jgetD (JVal.jobj its) "name".data (.jstr []) = nv := by
          simp [jgetD, hn]
        rw [hnv] at h
        by_cases hw : (jvalEqStr nv "Write".data || jvalEqStr nv "Edit".data) = true
        · cases nv with
          | jstr w =>
            have hmem := lookupLast_mem hn
            have hser : serialize (JVal.jstr w) <:+: serialize (JVal.jobj its) :=
              serialize_infix_of_mem_obj hmem
            rcases Bool.or_eq_true_iff.mp hw with h1 | h1
            · obtain rfl : w = "Write".data := by simpa [jvalEqStr] using h1
              left
              have : serialize (JVal.jstr "Write".data) = "\"Write\"".data := by decide
              rwa [this] at hser
            · obtain rfl : w = "Edit".data := by simpa [jvalEqStr] using h1
              right
              have : serialize (JVal.jstr "Edit".data) = "\"Edit\"".data := by decide
              rwa [this] at hser
          | jnull => simp [jvalEqStr] at hw
          | jbool b => simp [jvalEqStr] at hw
          | jnum n => simp [jvalEqStr] at hw
          | jarr xs => simp [jvalEqStr] at hw
          | jobj fs => simp [jvalEqStr] at hw
        · rw [if_neg hw] at h
          cases h
  | jnull => simp [itemPF, jgetD, jvalEqStr] at h
  | jbool b => simp [itemPF, jgetD, jvalEqStr] at h
  | jnum n => simp [itemPF, jgetD, jvalEqStr] at h
  | jstr s => simp [itemPF, jgetD, jvalEqStr] at h
  | jarr xs => simp [itemPF, jgetD, jvalEqStr] at h

/-- A member of the content item list of a record appears serialized
inside the serialization of the record. -/
theorem serialize_infix_of_mem_contentItems {r it : JVal}
    (h : it ∈ contentItems r) : serialize it <:+: serialize r := by
  rw [contentItems] at h
  cases r with
  | jobj rfs =>
    rcases hm : lookupLast rfs "message".data with _ | m
    · simp [jgetD, hm, lookupLast] at h
    · cases m with
      | jobj mfs =>
        rcases hc : lookupLast mfs "content".data with _ | c
        · simp [jgetD, hm, hc] at h
        · cases c with
          | jarr items =>
            have h1 : it ∈ items := by simpa [jgetD, hm, hc] using h
            exact (serialize_infix_of_mem_arr h1).trans
              ((serialize_infix_of_mem_obj (lookupLast_mem hc)).trans
                (serialize_infix_of_mem_obj (lookupLast_mem hm)))
          | jnull => simp [jgetD, hm, hc] at h
          | jbool b => simp [jgetD, hm, hc] at h
          | jnum n => simp [jgetD, hm, hc] at h
          | jstr s => simp [jgetD, hm, hc] at h
          | jobj fs => simp [jgetD, hm, hc] at h
      | jnull => simp [jgetD, hm] at h
      | jbool b => simp [jgetD, hm] at h
      | jnum n => simp [jgetD, hm] at h
      | jstr s => simp [jgetD, hm] at h
      | jarr xs => simp [jgetD, hm] at h
  | jnull => simp [jgetD, lookupLast] at h
  | jbool b => simp [jgetD, lookupLast] at h
  | jnum n => simp [jgetD, lookupLast] at h
  | jstr s => simp [jgetD, lookupLast] at h
  | jarr xs => simp [jgetD, lookupLast] at h

/-- A record the claim-side matcher recognizes has the quoted tool
name in its canonical serialization, so a canonically rendered line
passes the substring pre-filter.  An escaped rendering of the same
record need not. -/
theorem hasMarker_of_recordMatchSpec {r : JVal} {pf : List Char}
    (h : recordMatchSpec r = some pf) : hasMarker (serialize r) = true := by
  rw [recordMatchSpec] at h
  by_cases ht : jvalEqStr (jgetD r "type".data .jnull) "assistant".data
  case neg => rw [if_neg ht] at h; cases h
  case pos =>
    rw [if_pos ht] at h
    obtain ⟨it, hmem, hit⟩ := exists_of_findSome h
    have hmem' : it ∈ contentItems r := List.mem_reverse.mp hmem
    have hch := serialize_infix_of_mem_contentItems hmem'
    rcases marker_infix_of_itemPF hit with h1 | h1
    · have := containsB_of_infix (h1.trans hch)
      simp [hasMarker, this]
    · have := containsB_of_infix (h1.trans hch)
      simp [hasMarker, this]

/-- Canonically rendered lines never lose a match to the substring
pre-filter. -/
theorem prefilterComplete_mkLine (r : JVal) :
    prefilterComplete (mkLine r) = true := by
  rw [prefilterComplete]
  rcases hs : lineMatchSpec (mkLine r) with _ | pf
  · simp
  · have h : recordMatchSpec r = some pf := by
      simpa [lineMatchSpec, mkLine] using hs
    simp [lineRaw, mkLine, hasMarker_of_recordMatchSpec h]

/-! ## Helper lemmas: the scanner against its specification -/

theorem scanItem_ok {it : JVal} {acc acc' : Option (List Char)}
    (h : scanItem it acc = .ok acc') : acc' = (itemPF it).or acc := by
  cases it with
  | jnull => simp [scanItem, pyGet, pyGetD] at h
  | jbool b => simp [scanItem, pyGet, pyGetD] at h
  | jnum n => simp [scanItem, pyGet, pyGetD] at h
  | jstr s => simp [scanItem, pyGet, pyGetD] at h
  | jarr xs => simp [scanItem, pyGet, pyGetD] at h
  | jobj its =>
    simp only [scanItem, pyGet, pyGetD] at h
    by_cases ht : jvalEqStr ((lookupLast its "type".data).getD .jnull) "tool_use".data
    case neg =>
      simp only [ht, Bool.not_false, if_pos] at h
      obtain rfl : acc = acc' := by simpa using h
      simp [itemPF, jgetD, ht]
    case pos =>
      simp only [ht, Bool.not_true, Bool.false_eq_true, if_false] at h
      by_cases hw : (jvalEqStr ((lookupLast its "name".data).getD (.jstr []))
          "Write".data ||
          jvalEqStr ((lookupLast its "name".data).getD (.jstr [])) "Edit".data) = true
      case neg =>
        simp only [Bool.not_eq_true] at hw
        simp only [hw, Bool.not_false, if_pos] at h
        obtain rfl : acc = acc' := by simpa using h
        simp [itemPF, jgetD, ht, hw]
      case pos =>
        simp only [hw, Bool.not_true, Bool.false_eq_true, if_false] at h
        rcases hi : lookupLast its "input".data with _ | iv
        · simp only [hi, Option.getD_none] at h
          simp only [pyGetD, lookupLast, Option.getD_none] at h
          obtain rfl : (PLANNING_FILES.find? (fun pf => endsWithB [] pf)).or acc = acc' := by
            simpa using h
          simp [itemPF, jgetD, ht, hw, hi, lookupLast]
        · simp only [hi, Option.getD_some] at h
          cases iv with
          | jobj ifs =>
            simp only [pyGetD] at h
            rcases hf : lookupLast ifs "file_path".data with _ | fv
            · simp only [hf, Option.getD_none] at h
              obtain rfl : (PLANNING_FILES.find? (fun pf => endsWithB [] pf)).or acc = acc' := by
                simpa using h
              simp [itemPF, jgetD, ht, hw, hi, hf]
            · simp only [hf, Option.getD_some] at h
              cases fv with
              | jstr s =>
                obtain rfl :
                    (PLANNING_FILES.find? (fun pf => endsWithB s pf)).or acc = acc' := by
                  simpa using h
                simp [itemPF, jgetD, ht, hw, hi, hf]
              | jnull => simp at h
              | jbool b => simp at h
              | jnum n => simp at h
              | jarr xs => simp at h
              | jobj fs => simp at h
          | jnull => simp [pyGetD] at h
          | jbool b => simp [pyGetD] at h
          | jnum n => simp [pyGetD] at h
          | jstr s => simp [pyGetD] at h
          | jarr xs => simp [pyGetD] at h

theorem scanItems_ok {items : List JVal} {acc0 acc : Option (List Char)}
    (h : scanItems items acc0 = .ok acc) :
    acc = (items.reverse.findSome? itemPF).or acc0 := by
  induction items generalizing acc0 with
  | nil =>
    rw [scanItems] at h
    obtain rfl : acc0 = acc := by simpa using h
    simp [List.findSome?_nil]
  | cons it rest ih =>
    rw [scanItems] at h
    rcases hs : scanItem it acc0 with e | acc1
    · rw [hs] at h; cases h
    · rw [hs] at h
      have h1 := scanItem_ok hs
      have h2 := ih h
      rw [h2, h1, List.reverse_cons, List.findSome?_append]
      rcases hip : itemPF it with _ | pf <;>
        simp [hip, List.findSome?_cons, List.findSome?_nil, Option.or_assoc]

theorem recordScan_ok {r : JVal} {acc : Option (List Char)}
    (h : recordScan r = .ok acc) : acc = recordMatchSpec r := by
  cases r with
  | jnull => rw [recordScan] at h; simp [pyGet, pyGetD] at h
  | jbool b => rw [recordScan] at h; simp [pyGet, pyGetD] at h
  | jnum n => rw [recordScan] at h; simp [pyGet, pyGetD] at h
  | jstr s => rw [recordScan] at h; simp [pyGet, pyGetD] at h
  | jarr xs => rw [recordScan] at h; simp [pyGet, pyGetD] at h
  | jobj rfs =>
    rw [recordScan] at h
    simp only [pyGet, pyGetD] at h
    by_cases ht : jvalEqStr ((lookupLast rfs "type".data).getD .jnull) "assistant".data
    case neg =>
      simp only [ht, Bool.not_false, if_pos] at h
      obtain rfl : (none : Option (List Char)) = acc := by simpa using h
      simp [recordMatchSpec, jgetD, ht]
    case pos =>
      simp only [ht, Bool.not_true, Bool.false_eq_true, if_false] at h
      rcases hm : lookupLast rfs "message".data with _ | mv
      · simp only [hm, Option.getD_none, pyGetD, lookupLast, Option.getD_none] at h
        rw [scanItems] at h
        obtain rfl : (none : Option (List Char)) = acc := by simpa using h
        simp [recordMatchSpec, jgetD, ht, contentItems, hm, lookupLast, List.findSome?_nil]
      · simp only [hm, Option.getD_some] at h
        cases mv with
        | jobj mfs =>
          simp only [pyGetD] at h
          rcases hc : lookupLast mfs "content".data with _ | cv
          · simp only [hc, Option.getD_none] at h
            rw [scanItems] at h
            obtain rfl : (none : Option (List Char)) = acc := by simpa using h
            simp [recordMatchSpec, jgetD, ht, contentItems, hm, hc, List.findSome?_nil]
          · simp only [hc, Option.getD_some] at h
            cases cv with
            | jarr items =>
              have hsi : scanItems items none = .ok acc := h
              have := scanItems_ok hsi
              rw [this]
              simp [recordMatchSpec, jgetD, ht, contentItems, hm, hc, Option.or_none]
            | jnull =>
              obtain rfl : (none : Option (List Char)) = acc := by simpa using h
              simp [recordMatchSpec, jgetD, ht, contentItems, hm, hc, List.findSome?_nil]
            | jbool b =>
              obtain rfl : (none : Option (List Char)) = acc := by simpa using h
              simp [recordMatchSpec, jgetD, ht, contentItems, hm, hc, List.findSome?_nil]
            | jnum n =>
              obtain rfl : (none : Option (List Char)) = acc := by simpa using h
              simp [recordMatchSpec, jgetD, ht, contentItems, hm, hc, List.findSome?_nil]
            | jstr s =>
              obtain rfl : (none : Option (List Char)) = acc := by simpa using h
              simp [recordMatchSpec, jgetD, ht, contentItems, hm, hc, List.findSome?_nil]
            | jobj fs =>
              obtain rfl : (none : Option (List Char)) = acc := by simpa using h
              simp [recordMatchSpec, jgetD, ht, contentItems, hm, hc, List.findSome?_nil]
        | jnull => simp [pyGetD] at h
        | jbool b => simp [pyGetD] at h
        | jnum n => simp [pyGetD] at h
        | jstr s => simp [pyGetD] at h
        | jarr xs => simp [pyGetD] at h

theorem lineResult_ok {l : Line} {acc : Option (List Char)}
    (h : lineResult l = .ok acc) : acc = lineMatchSpec l := by
  rcases l with ⟨raw, _ | r⟩
  · rw [lineResult] at h
    obtain rfl : (none : Option (List Char)) = acc := by simpa using h
    rfl
  · exact recordScan_ok h

theorem scanGo_append {ls : List Line} (hna : ls.all noAbortLine = true)
    (ms : List Line) : ∀ (n : Nat) st,
    scanGo n st (ls ++ ms) = scanGo (n + ls.length) (scanGo n st ls) ms := by
  induction ls with
  | nil => intro n st; simp [scanGo]
  | cons l rest ih =>
    intro n st
    rw [List.all_cons, Bool.and_eq_true] at hna
    rw [List.cons_append, scanGo, scanGo]
    by_cases hm : hasMarker (lineRaw l)
    · simp only [hm, Bool.not_true, Bool.false_eq_true, if_false]
      rcases hr : lineResult l with e | acc
      · rw [noAbortLine, hr] at hna
        exact absurd hna.1 (by simp)
      · have hrec := ih hna.2 (n + 1) (applySt st n acc)
        have harith : n + 1 + rest.length = n + (l :: rest).length := by
          simp [List.length_cons]; omega
        rw [harith] at hrec
        exact hrec
    · simp only [hm, Bool.not_false, if_pos]
      have hrec := ih hna.2 (n + 1) st
      have harith : n + 1 + rest.length = n + (l :: rest).length := by
        simp [List.length_cons]; omega
      rw [harith] at hrec
      exact hrec

theorem scanGo_single {l : Line} (hna : noAbortLine l = true)
    (hpc : prefilterComplete l = true) (n : Nat)
    (st : Int × Option (List Char)) :
    scanGo n st [l] = applySt st n (lineMatchSpec l) := by
  rw [scanGo]
  by_cases hm : hasMarker (lineRaw l)
  · rcases hr : lineResult l with e | acc
    · rw [noAbortLine, hr] at hna; cases hna
    · simp only [hm, Bool.not_true, Bool.false_eq_true, if_false, hr, scanGo]
      rw [lineResult_ok hr]
  · rcases hs : lineMatchSpec l with _ | pf
    · simp [hm, scanGo, applySt, hs]
    · rw [prefilterComplete, hs] at hpc
      simp only [Option.isSome_some, Option.isNone_some, Bool.false_or] at hpc
      exact absurd hpc (by simpa using hm)

theorem specLastMatch_concat (ls : List Line) (l : Line) :
    specLastMatch (ls ++ [l]) =
      applySt (specLastMatch ls) ls.length (lineMatchSpec l) := by
  rw [specLastMatch, specLastMatch, List.enum_append, List.reverse_append]
  have he : List.enumFrom ls.length [l] = [(ls.length, l)] := by
    simp [List.enumFrom]
  rw [he]
  simp only [List.reverse_cons, List.reverse_nil, List.nil_append,
    List.cons_append, List.findSome?_cons]
  rcases hs : lineMatchSpec l with _ | pf
  · simp only [hs, Option.map_none']
    rcases List.findSome? (fun p => (lineMatchSpec p.2).map (fun pf => (p.1, pf)))
        (ls.enum.reverse) with _ | q
    · simp [applySt]
    · simp [applySt]
  · simp [hs, applySt]

theorem scanGo_eq_spec {lines : List Line}
    (hna : lines.all noAbortLine = true)
    (hpc : lines.all prefilterComplete = true) :
    scanGo 0 (-1, none) lines = specLastMatch lines := by
  induction lines using List.reverseRecOn with
  | nil => simp [scanGo, specLastMatch, List.findSome?_nil]
  | append_singleton ls l ih =>
    rw [List.all_append, Bool.and_eq_true] at hna hpc
    have hl : noAbortLine l = true := by simpa using hna.2
    have hlp : prefilterComplete l = true := by simpa using hpc.2
    rw [scanGo_append hna.1 [l] 0 (-1, none), ih hna.1 hpc.1,
      scanGo_single hl hlp, specLastMatch_concat]
    simp

theorem scanGoNF_append (ls : List Line) (hna : ls.all noAbortLine = true)
    (ms : List Line) : ∀ (n : Nat) st,
    scanGoNF n st (ls ++ ms) = scanGoNF (n + ls.length) (scanGoNF n st ls) ms := by
  induction ls with
  | nil => intro n st; simp [scanGoNF]
  | cons l rest ih =>
    intro n st
    rw [List.all_cons, Bool.and_eq_true] at hna
    rw [List.cons_append, scanGoNF, scanGoNF]
    rcases hr : lineResult l with e | acc
    · rw [noAbortLine, hr] at hna
      exact absurd hna.1 (by simp)
    · have hrec := ih hna.2 (n + 1) (applySt st n acc)
      have harith : n + 1 + rest.length = n + (l :: rest).length := by
        simp [List.length_cons]; omega
      rw [harith] at hrec
      exact hrec

theorem scanGoNF_single {l : Line} (hna : noAbortLine l = true) (n : Nat)
    (st : Int × Option (List Char)) :
    scanGoNF n st [l] = applySt st n (lineMatchSpec l) := by
  rw [scanGoNF]
  rcases hr : lineResult l with e | acc
  · rw [noAbortLine, hr] at hna; cases hna
  · simp only [scanGoNF]
    rw [lineResult_ok hr]

theorem scanGoNF_eq_spec {lines : List Line}
    (hna : lines.all noAbortLine = true) :
    scanGoNF 0 (-1, none) lines = specLastMatch lines := by
  induction lines using List.reverseRecOn with
  | nil => simp [scanGoNF, specLastMatch, List.findSome?_nil]
  | append_singleton ls l ih =>
    rw [List.all_append, Bool.and_eq_true] at hna
    have hl : noAbortLine l = true := by simpa using hna.2
    rw [scanGoNF_append ls hna.1 [l] 0 (-1, none), ih hna.1, scanGoNF_single hl,
      specLastMatch_concat]
    simp

/-! ## Concrete example records -/

/-- An assistant record whose content holds one Write tool_use on the
given file path. -/
def writeRecord (fp : List Char) : JVal :=
  .jobj [("type".data, .jstr "assistant".data),
         ("message".data, .jobj [("content".data, .jarr
            [.jobj [("type".data, .jstr "tool_use".data),
                    ("name".data, .jstr "Write".data),
                    ("input".data, .jobj [("file_path".data, .jstr fp)])]])])]

/-- A plain user record with string content. -/
def userRecord (s : List Char) : JVal :=
  .jobj [("type".data, .jstr "user".data),
         ("message".data, .jobj [("content".data, .jstr s)])]

/-! ## Claim C2 -/

/-- A raw line text rendering the Write record for the given file path
with the tool name written through the JSON escape sequence \u0057 for
the letter W: json.loads parses it to the same record as the canonical
rendering, but the raw text contains neither the quoted-Write nor the
quoted-Edit substring, so the substring pre-filter skips the line. -/
def escapedWriteRaw (fp : List Char) : List Char :=
  ("\x7b\"type\":\"assistant\",\"message\":\x7b\"content\":" ++
   "[\x7b\"type\":\"tool_use\",\"name\":\"\\u0057rite\"," ++
   "\"input\":\x7b\"file_path\":\"").data ++ fp ++
  "\"\x7d\x7d]\x7d\x7d".data

/-- The escaped rendering paired with its json.loads parse result. -/
def escapedWriteLine (fp : List Char) : Line :=
  ⟨escapedWriteRaw fp, some (writeRecord fp)⟩

/-- A session whose middle line parses to a JSON array containing the
string Write: it passes the substring pre-filter, and calling .get on
the parsed list raises AttributeError, aborting the scan. -/
def cexC2 : List Line :=
  [mkLine (writeRecord "task_plan.md".data),
   mkLine (.jarr [.jstr "Write".data]),
   mkLine (writeRecord "progress.md".data)]

/-- A one-line session whose only line is a matching Write record
rendered with the \u0057 escape: no shape error is raised anywhere,
yet the pre-filter skips the line. -/
def cexC2esc : List Line :=
  [escapedWriteLine "task_plan.md".data]

/-- Claim C2 as stated is false, in two independent ways.  First, on a
file whose line 0 and line 2 both match but whose line 1 parses to a
non-dict (raising AttributeError inside the scan loop, swallowed by
the bare except), the scanner returns the line 0 match instead of the
highest-numbered match at line 2.  Second, on a file whose only line
is a matching record rendered with an escaped tool name, no exception
is raised and yet the scanner returns the sentinel instead of the
match, because the substring pre-filter skips the line. -/
theorem c2_counterexample :
    (scan_for_planning_update ⟨"sess".data, some cexC2⟩ ≠ specLastMatch cexC2 ∧
      scan_for_planning_update ⟨"sess".data, some cexC2⟩ =
        (0, some "task_plan.md".data) ∧
      specLastMatch cexC2 = (2, some "progress.md".data)) ∧
    (cexC2esc.all noAbortLine = true ∧
      scan_for_planning_update ⟨"sess".data, some cexC2esc⟩ ≠
        specLastMatch cexC2esc ∧
      scan_for_planning_update ⟨"sess".data, some cexC2esc⟩ = (-1, none) ∧
      specLastMatch cexC2esc = (0, some "task_plan.md".data)) :=
  ⟨⟨by decide, by decide, by decide⟩, ⟨by decide, by decide, by decide, by decide⟩⟩

/-- Claim C2 (amended): for every session file none of whose lines
raises a Python shape error during full processing, and none of whose
matching lines is hidden from the substring pre-filter by a
non-canonical rendering of the tool name, the scanner returns the
(line index, filename) of the last line containing a matching
Write/Edit tool call on a planning filename — the sentinel (-1, none)
when no line matches, the highest-numbered match otherwise. -/
theorem c2_scan_returns_last_match (stem : List Char) (lines : List Line)
    (hna : lines.all noAbortLine = true)
    (hpc : lines.all prefilterComplete = true) :
    scan_for_planning_update ⟨stem, some lines⟩ = specLastMatch lines := by
  show scanGo 0 (-1, none) lines = specLastMatch lines
  exact scanGo_eq_spec hna hpc

/-- The amended Claim C2 theorem applied to a concrete two-match file:
the later match at line 1 wins. -/
theorem c2_witness :
    ([mkLine (writeRecord "notes/task_plan.md".data),
      mkLine (writeRecord "notes/findings.md".data)].all noAbortLine = true) ∧
    ([mkLine (writeRecord "notes/task_plan.md".data),
      mkLine (writeRecord "notes/findings.md".data)].all prefilterComplete = true) ∧
    scan_for_planning_update ⟨"sessw2".data,
      some [mkLine (writeRecord "notes/task_plan.md".data),
            mkLine (writeRecord "notes/findings.md".data)]⟩ =
      specLastMatch [mkLine (writeRecord "notes/task_plan.md".data),
            mkLine (writeRecord "notes/findings.md".data)] :=
  ⟨by decide, by decide,
    c2_scan_returns_last_match "sessw2".data _ (by decide) (by decide)⟩

/-! ## Claim C3 -/

/-- A session whose first line parses to the array [5]: it fails the
substring pre-filter, but the scan without the pre-filter parses it
and aborts on the AttributeError from .get, missing the later match. -/
def cexC3 : List Line :=
  [mkLine (.jarr [.jnum 5]),
   mkLine (writeRecord "findings.md".data)]

/-- A one-line session with an escape-rendered matching record: the
pre-filtered scan skips it, the unfiltered scan matches it, and no
exception is raised in either. -/
def cexC3esc : List Line :=
  [escapedWriteLine "progress.md".data]

/-- Claim C3 as stated is false, in two independent ways.  First, the
pre-filter changes the result on a file containing a line that fails
the pre-filter but whose full parsing raises a shape error that aborts
the unfiltered scan.  Second, it changes the result on a file whose
only line renders a matching tool name through a \u0057 escape: no
shape error occurs, the unfiltered scan finds the match, and the
pre-filtered scan skips the line. -/
theorem c3_counterexample :
    (scan_for_planning_update ⟨"sess".data, some cexC3⟩ ≠
        scanNoFilter ⟨"sess".data, some cexC3⟩ ∧
      scan_for_planning_update ⟨"sess".data, some cexC3⟩ =
        (1, some "findings.md".data) ∧
      scanNoFilter ⟨"sess".data, some cexC3⟩ = (-1, none)) ∧
    (cexC3esc.all noAbortLine = true ∧
      scan_for_planning_update ⟨"sess".data, some cexC3esc⟩ ≠
        scanNoFilter ⟨"sess".data, some cexC3esc⟩ ∧
      scan_for_planning_update ⟨"sess".data, some cexC3esc⟩ = (-1, none) ∧
      scanNoFilter ⟨"sess".data, some cexC3esc⟩ =
        (0, some "progress.md".data)) :=
  ⟨⟨by decide, by decide, by decide⟩, ⟨by decide, by decide, by decide, by decide⟩⟩

/-- Claim C3 (amended): for every session file none of whose lines
raises a Python shape error during full processing, and none of whose
matching lines is hidden from the substring pre-filter by a
non-canonical rendering of the tool name, the scanner with the
pre-filter returns exactly the result of the same scan without the
pre-filter. -/
theorem c3_prefilter_refines (stem : List Char) (lines : List Line)
    (hna : lines.all noAbortLine = true)
    (hpc : lines.all prefilterComplete = true) :
    scan_for_planning_update ⟨stem, some lines⟩ =
      scanNoFilter ⟨stem, some lines⟩ := by
  show scanGo 0 (-1, none) lines = scanGoNF 0 (-1, none) lines
  rw [scanGo_eq_spec hna hpc, scanGoNF_eq_spec hna]

/-- The amended Claim C3 theorem applied to a concrete file mixing an
unparsable line, a plain user line and a match. -/
theorem c3_witness :
    ([badLine "not json".data,
      mkLine (userRecord "hello there friend".data),
      mkLine (writeRecord "doc/progress.md".data)].all noAbortLine = true) ∧
    ([badLine "not json".data,
      mkLine (userRecord "hello there friend".data),
      mkLine (writeRecord "doc/progress.md".data)].all prefilterComplete = true) ∧
    scan_for_planning_update ⟨"sessw3".data,
      some [badLine "not json".data,
            mkLine (userRecord "hello there friend".data),
            mkLine (writeRecord "doc/progress.md".data)]⟩ =
      scanNoFilter ⟨"sessw3".data,
        some [badLine "not json".data,
              mkLine (userRecord "hello there friend".data),
              mkLine (writeRecord "doc/progress.md".data)]⟩ :=
  ⟨by decide, by decide,
    c3_prefilter_refines "sessw3".data _ (by decide) (by decide)⟩

/-! ## Claim C1 -/

theorem findUpdate_eq {previous : List Session} {k : Nat} {s : Session}
    (hk : previous.get? k = some s)
    (hs : 0 ≤ (scan_for_planning_update s).1)
    (hb : (previous.take k).all
      (fun t => decide ((scan_for_planning_update t).1 < 0)) = true) :
    findUpdate previous = some (k, s, (scan_for_planning_update s).1,
      (scan_for_planning_update s).2) := by
  induction previous generalizing k with
  | nil => simp [List.get?] at hk
  | cons s0 rest ih =>
    cases k with
    | zero =>
      obtain rfl : s0 = s := by simpa using hk
      rw [findUpdate]
      simp [hs]
    | succ k =>
      have hk' : rest.get? k = some s := by simpa using hk
      rw [List.take_succ_cons, List.all_cons, Bool.and_eq_true] at hb
      have h0 : (scan_for_planning_update s0).1 < 0 := by
        simpa using hb.1
      have hnot : ¬ (0 ≤ (scan_for_planning_update s0).1) := by omega
      rw [findUpdate]
      simp only [hnot, if_neg, ite_false, decide_eq_true_eq]
      rw [ih hk' hb.2]
      simp

/-- Claim C1: in every run in which the marker is found at index k of
the previous-sessions list (the k newer sessions report no update,
session k reports one), the unsynced message sequence is exactly the
marker session tail strictly after the marker line, followed by the
full message sets of the sessions strictly newer than the marker
session taken oldest to newest. -/
theorem c1_catchup_order (previous : List Session) (k : Nat) (s : Session)
    (hk : previous.get? k = some s)
    (hs : 0 ≤ (scan_for_planning_update s).1)
    (hb : (previous.take k).all
      (fun t => decide ((scan_for_planning_update t).1 < 0)) = true) :
    collectUnsynced previous = some
      (extract_messages_from_session s (scan_for_planning_update s).1 ++
        ((previous.take k).reverse).flatMap
          (fun t => extract_messages_from_session t (-1))) := by
  rw [collectUnsynced, findUpdate_eq hk hs hb]
  simp

def sessMarker : Session :=
  ⟨"aaaa1111-2222".data,
   some [mkLine (writeRecord "task_plan.md".data),
         mkLine (userRecord "tail message after the marker line".data)]⟩

def sessNewer : Session :=
  ⟨"bbbb3333-4444".data,
   some [mkLine (userRecord "newer session first message here".data)]⟩

/-- Claim C1 theorem applied to a concrete two-session history: the
newer session (index 0) has no marker, the older one (index 1) has it
at line 0. -/
theorem c1_witness :
    (0 ≤ (scan_for_planning_update sessMarker).1) ∧
    (([sessNewer, sessMarker].take 1).all
      (fun t => decide ((scan_for_planning_update t).1 < 0)) = true) ∧
    collectUnsynced [sessNewer, sessMarker] = some
      (extract_messages_from_session sessMarker
          (scan_for_planning_update sessMarker).1 ++
        (([sessNewer, sessMarker].take 1).reverse).flatMap
          (fun t => extract_messages_from_session t (-1))) :=
  ⟨by decide, by decide,
    c1_catchup_order [sessNewer, sessMarker] 1 sessMarker rfl (by decide) (by decide)⟩

/-! ## Claim C7 -/

/-- Claim C7 as stated is false: on the input "_a" the code produces
"--a" (the leading-dash check runs before underscores are replaced),
while the claimed formula (replace both, then prefix when the result
does not start with a dash) produces "-a". -/
theorem c7_counterexample :
    get_project_dir_claude "_a".data ≠ claimSanitize "_a".data ∧
    get_project_dir_claude "_a".data = "--a".data ∧
    claimSanitize "_a".data = "-a".data :=
  ⟨by decide, by decide, by decide⟩

theorem replaceChar_clean (s : List Char) :
    (replaceChar '_' '-' (replaceChar '/' '-' s)).all
      (fun c => !(c == '/') && !(c == '_')) = true := by
  induction s with
  | nil => rfl
  | cons c t ih =>
    simp only [replaceChar, List.map_cons, List.all_cons, Bool.and_eq_true] at ih ⊢
    refine ⟨?_, by simpa [replaceChar] using ih⟩
    by_cases h1 : c == '/'
    · simp [h1]
    · by_cases h2 : c == '_'
      · simp [h1, h2]
      · simp [h1, h2]

theorem replaceChar_cons_dash (s : List Char) :
    replaceChar '_' '-' ('-' :: s) = '-' :: replaceChar '_' '-' s := rfl

/-- Claim C7 (amended): the directory name equals the input with "/"
and "_" replaced by "-", prefixed with "-" exactly when the input with
only "/" replaced does not already start with "-" (the prefix decision
precedes the underscore replacement); the result always starts with
"-" and contains neither "/" nor "_". -/
theorem c7_sanitize_shape (p : List Char) :
    get_project_dir_claude p =
      (if isPrefixB "-".data (replaceChar '/' '-' p) then
        replaceChar '_' '-' (replaceChar '/' '-' p)
      else '-' :: replaceChar '_' '-' (replaceChar '/' '-' p)) ∧
    isPrefixB "-".data (get_project_dir_claude p) = true ∧
    (get_project_dir_claude p).all (fun c => !(c == '/') && !(c == '_')) = true := by
  refine ⟨?_, ?_, ?_⟩
  · simp only [get_project_dir_claude]
    by_cases h : isPrefixB "-".data (replaceChar '/' '-' p) = true
    · rw [if_pos h, if_pos h]
    · rw [if_neg h, if_neg h, replaceChar_cons_dash]
  · simp only [get_project_dir_claude]
    by_cases h : isPrefixB "-".data (replaceChar '/' '-' p) = true
    · rw [if_pos h]
      rcases hr : replaceChar '/' '-' p with _ | ⟨c, t⟩
      · rw [hr] at h
        exact absurd h (by decide)
      · rw [hr] at h
        rw [isPrefixB] at h
        have hc : ('-' == c) = true := by
          revert h
          cases ('-' == c) <;> simp
        obtain rfl : c = '-' := (eq_of_beq hc).symm
        rw [replaceChar_cons_dash, isPrefixB]
        simp [isPrefixB]
    · rw [if_neg h, replaceChar_cons_dash, isPrefixB]
      simp [isPrefixB]
  · simp only [get_project_dir_claude]
    by_cases h : isPrefixB "-".data (replaceChar '/' '-' p) = true
    · rw [if_pos h]
      exact replaceChar_clean p
    · rw [if_neg h, replaceChar_cons_dash, List.all_cons, replaceChar_clean p]
      decide

/-! ## Claim C9 -/

def rec21drop : JVal := userRecord "<local-command-stdout".data

/-- Claim C9 as stated is false on its retention half: this non-meta
user record has string content of exactly 21 characters, yet it is
dropped because the content starts with the system-marker prefix
"<local-command". -/
theorem c9_counterexample :
    pyGet rec21drop "type".data = .ok (.jstr "user".data) ∧
    pyGetD rec21drop "isMeta".data (.jbool false) = .ok (.jbool false) ∧
    userContentVal rec21drop = .ok (.jstr "<local-command-stdout".data) ∧
    "<local-command-stdout".data.length = 21 ∧
    extract_messages_from_session ⟨"sessionXY".data,
      some [mkLine rec21drop]⟩ (-1) = [] :=
  ⟨rfl, rfl, rfl, by decide, rfl⟩

/-- Claim C9 (amended): a non-meta user record whose extracted string
content is shorter than 21 characters is dropped; one whose content is
exactly 21 characters long is retained provided the content does not
start with one of the system-marker prefixes. -/
theorem c9_user_length_filter (r : JVal) (stem8 : List Char) (n : Nat)
    (t meta : JVal) (s : List Char)
    (ht : pyGet r "type".data = .ok t)
    (htu : jvalEqStr t "user".data = true)
    (hm : pyGetD r "isMeta".data (.jbool false) = .ok meta)
    (hmf : pyTruthy meta = false)
    (hc : userContentVal r = .ok (.jstr s)) :
    (s.length < 21 → extractRecord stem8 n r = .ok none) ∧
    (s.length = 21 → startsWithAnyB s sysMarkers = false →
      extractRecord stem8 n r = .ok (some (.user s n stem8))) := by
  constructor
  · intro hlen
    rw [extractRecord, ht, hm]
    simp only [htu, hmf, Bool.not_false, Bool.and_true, if_pos]
    rw [hc]
    by_cases he : s.isEmpty
    · simp [he]
    · have h20 : ¬ (20 < s.length) := by omega
      by_cases hp : startsWithAnyB s sysMarkers
      · simp [he, hp]
      · simp [he, hp, h20]
  · intro hlen hp
    rw [extractRecord, ht, hm]
    simp only [htu, hmf, Bool.not_false, Bool.and_true, if_pos]
    rw [hc]
    have he : s.isEmpty = false := by
      cases s with
      | nil => simp at hlen
      | cons a t => simp [List.isEmpty]
    have h20 : 20 < s.length := by omega
    simp [he, hp, h20]

def rec21keep : JVal := userRecord "abcdefghijklmnopqrstu".data

/-- The amended Claim C9 theorem applied to a concrete 21-character
user record without a system-marker prefix: the record is retained. -/
theorem c9_witness :
    ("abcdefghijklmnopqrstu".data.length = 21) ∧
    extractRecord "sessionA".data 0 rec21keep =
      .ok (some (.user "abcdefghijklmnopqrstu".data 0 "sessionA".data)) :=
  ⟨by decide,
    (c9_user_length_filter rec21keep "sessionA".data 0
        (.jstr "user".data) (.jbool false) "abcdefghijklmnopqrstu".data
        rfl (by decide) rfl (by decide) rfl).2 (by decide) (by decide)⟩

/-! ## Claim C8 -/

theorem scanGo_invalid_concat (raw : List Char) :
    ∀ (ls : List Line) (n : Nat) (st : Int × Option (List Char)),
    scanGo n st (ls ++ [badLine raw]) = scanGo n st ls := by
  intro ls
  induction ls with
  | nil =>
    intro n st
    rw [List.nil_append]
    by_cases hm : hasMarker (lineRaw (badLine raw)) = true
    · simp [scanGo, hm, lineResult, badLine, applySt]
    · have hm2 : hasMarker (lineRaw (badLine raw)) = false := by simpa using hm
      simp [scanGo, hm2]
  | cons l rest ih =>
    intro n st
    rw [List.cons_append, scanGo, scanGo]
    by_cases hm : hasMarker (lineRaw l)
    · simp only [hm, Bool.not_true, Bool.false_eq_true, if_false]
      rcases hr : lineResult l with e | acc
      · rfl
      · exact ih (n + 1) (applySt st n acc)
    · simp only [hm, Bool.not_false, if_pos]
      exact ih (n + 1) st

theorem extractGo_invalid_concat (stem8 : List Char) (after : Int)
    (raw : List Char) : ∀ (ls : List Line) (n : Nat),
    extractGo stem8 after n (ls ++ [badLine raw]) = extractGo stem8 after n ls := by
  intro ls
  induction ls with
  | nil =>
    intro n
    rw [List.nil_append]
    by_cases hskip : 0 ≤ after ∧ (n : Int) ≤ after
    · simp only [extractGo]
      rw [if_pos hskip]
    · simp only [extractGo]
      rw [if_neg hskip]
      rfl
  | cons l rest ih =>
    intro n
    rw [List.cons_append, extractGo, extractGo]
    by_cases hskip : 0 ≤ after ∧ (n : Int) ≤ after
    · simp only [hskip, if_pos]
      exact ih (n + 1)
    · simp only [hskip, if_neg, ite_false]
      rcases hr : extractLine stem8 n l with e | o
      · rfl
      · cases o with
        | none => exact ih (n + 1)
        | some m => rw [ih (n + 1)]

def shapeErrSessExtract : Session :=
  ⟨"shapesess".data,
   some [mkLine (userRecord "first message with enough length".data),
         mkLine (.jnum 7),
         mkLine (userRecord "second message is never reached".data)]⟩

def shapeErrSessScan : Session :=
  ⟨"shapescan".data,
   some [mkLine (writeRecord "findings.md".data),
         mkLine (.jarr [.jstr "Edit".data]),
         mkLine (writeRecord "the/task_plan.md".data)]⟩

/-- Claim C8: neither scanner nor extractor ever raises. An unreadable
file yields the not-found sentinel for the scanner and the empty
message list for the extractor; an unparsable JSON line is skipped by
both (appending one never changes the result); and a record of
unexpected shape is absorbed by the bare except — the partial result
collected before it is returned (shown on concrete files whose middle
record raises in Python). -/
theorem c8_never_raises :
    (∀ stem : List Char, scan_for_planning_update ⟨stem, none⟩ = (-1, none)) ∧
    (∀ (stem raw : List Char) (ls : List Line),
      scan_for_planning_update ⟨stem, some (ls ++ [badLine raw])⟩ =
        scan_for_planning_update ⟨stem, some ls⟩) ∧
    (∀ (stem : List Char) (a : Int),
      extract_messages_from_session ⟨stem, none⟩ a = []) ∧
    (∀ (stem raw : List Char) (ls : List Line) (a : Int),
      extract_messages_from_session ⟨stem, some (ls ++ [badLine raw])⟩ a =
        extract_messages_from_session ⟨stem, some ls⟩ a) ∧
    extract_messages_from_session shapeErrSessExtract (-1) =
      [.user "first message with enough length".data 0 "shapeses".data] ∧
    scan_for_planning_update shapeErrSessScan =
      (0, some "findings.md".data) :=
  ⟨fun _ => rfl,
   fun stem raw ls => scanGo_invalid_concat raw ls 0 (-1, none),
   fun _ _ => rfl,
   fun stem raw ls a => extractGo_invalid_concat (stem.take 8) a raw ls 0,
   by rfl,
   by decide⟩

/-! ## Claim C5 -/

/-- Claim C5: with an existing source of content x and a destination
of different content y, dry-run sync_file reports "updated" and leaves
the whole filesystem — in particular the destination content and hence
its hash — unchanged. -/
theorem c5_dry_run_frame (w : World) (src dst x y : List Char)
    (hs : w.files src = some x) (hd : w.files dst = some y) (hxy : x ≠ y) :
    sync_file w src dst true = (.updated, w) ∧
    (sync_file w src dst true).2.files dst = some y := by
  have hmain : sync_file w src dst true = (.updated, w) := by
    rw [sync_file]
    have h1 : (w.files src).isNone = false := by simp [hs]
    rw [h1]
    have h2 : (file_hash w src == file_hash w dst) = false := by
      simp only [file_hash, hs, hd]
      simpa using hxy
    simp only [Bool.false_eq_true, if_false, h2]
    have h3 : (file_hash w dst).isNone = false := by simp [file_hash, hd]
    simp [h3]
  exact ⟨hmain, by rw [hmain]; exact hd⟩

def w5 : World :=
  ⟨fun p => if p == "skills/planning-with-files/reference.md".data then
      some "canonical text".data
    else if p == ".pi/skills/planning-with-files/reference.md".data then
      some "stale text".data
    else none,
   fun _ => false⟩

/-- Claim C5 theorem applied to a concrete world with differing source
and destination contents. -/
theorem c5_witness :
    (w5.files "skills/planning-with-files/reference.md".data =
      some "canonical text".data) ∧
    sync_file w5 "skills/planning-with-files/reference.md".data
        ".pi/skills/planning-with-files/reference.md".data true =
      (.updated, w5) ∧
    (sync_file w5 "skills/planning-with-files/reference.md".data
        ".pi/skills/planning-with-files/reference.md".data true).2.files
        ".pi/skills/planning-with-files/reference.md".data =
      some "stale text".data :=
  ⟨by decide,
   (c5_dry_run_frame w5 "skills/planning-with-files/reference.md".data
      ".pi/skills/planning-with-files/reference.md".data
      "canonical text".data "stale text".data (by decide) (by decide)
      (by decide)).1,
   (c5_dry_run_frame w5 "skills/planning-with-files/reference.md".data
      ".pi/skills/planning-with-files/reference.md".data
      "canonical text".data "stale text".data (by decide) (by decide)
      (by decide)).2⟩

/-! ## Claim C6 -/

/-- Claim C6: in every target folder of the manifest table — both the
generated ones and the hand-specified .kiro entry — the destination
paths of the manifest entries are pairwise distinct. -/
theorem c6_destinations_distinct :
    IDE_MANIFESTS.all (fun p => distinctB (p.2.map (fun e => e.2))) = true := by
  decide

/-! ## Claim C4 -/

theorem addReport_drift (st : Stats) (o : Option Report) :
    (st.addReport o).drift = st.drift + (if o.isSome then 1 else 0) := by
  cases o with
  | none => simp [Stats.addReport]
  | some r => simp [Stats.addReport]

theorem foldl_runEntry_verify (d : Bool) (es : List (List Char × List Char)) :
    ∀ (w : World) (st : Stats),
    (es.foldl (runEntry true d) (w, st)).1 = w ∧
    (es.foldl (runEntry true d) (w, st)).2.drift =
      st.drift + es.countP (fun e => (verifyEntry w e).isSome) := by
  induction es with
  | nil => intro w st; simp
  | cons e rest ih =>
    intro w st
    rw [List.foldl_cons]
    have hstep : runEntry true d (w, st) e =
        (w, st.addReport (verifyEntry w e)) := rfl
    rw [hstep]
    have h := ih w (st.addReport (verifyEntry w e))
    refine ⟨h.1, ?_⟩
    rw [h.2, addReport_drift, List.countP_cons]
    rcases verifyEntry w e with _ | r
    all_goals simp
    all_goals omega

theorem runFolder_verify (d : Bool) (w : World) (st : Stats)
    (m : List (List Char × List Char)) :
    (runFolder true d (w, st) m).1 = w ∧
    (runFolder true d (w, st) m).2.drift =
      st.drift + m.countP (fun e => (verifyEntry w e).isSome) := by
  rw [runFolder]
  have h := foldl_runEntry_verify d
    (List.insertionSort (fun x y => lexLe x.1 y.1 = true) m) w st
  refine ⟨h.1, ?_⟩
  rw [h.2,
    (List.perm_insertionSort (fun x y => lexLe x.1 y.1 = true) m).countP_eq]

theorem countP_flatMap {α β : Type} (g : α → List β) (p : β → Bool)
    (l : List α) :
    (l.flatMap g).countP p = (l.map (fun a => (g a).countP p)).sum := by
  induction l with
  | nil => simp
  | cons a t ih => simp [List.flatMap_cons, List.countP_append, ih]

theorem foldl_folders_verify (d : Bool)
    (ps : List (List Char × List (List Char × List Char))) :
    ∀ (w : World) (st : Stats),
    (ps.foldl (fun acc p =>
        if acc.1.dirs p.1 then runFolder true d acc p.2 else acc) (w, st)).1 = w ∧
    (ps.foldl (fun acc p =>
        if acc.1.dirs p.1 then runFolder true d acc p.2 else acc) (w, st)).2.drift =
      st.drift + ((ps.filter (fun p => w.dirs p.1)).map
        (fun p => p.2.countP (fun e => (verifyEntry w e).isSome))).sum := by
  induction ps with
  | nil => intro w st; simp
  | cons p rest ih =>
    intro w st
    rw [List.foldl_cons]
    by_cases hd : w.dirs p.1 = true
    · obtain ⟨hw, hdr⟩ := runFolder_verify d w st p.2
      rcases hfold : runFolder true d (w, st) p.2 with ⟨w2, st2⟩
      rw [hfold] at hw hdr
      simp only at hw hdr
      subst hw
      rw [if_pos hd]
      have h := ih w2 st2
      refine ⟨h.1, ?_⟩
      rw [h.2, hdr, List.filter_cons_of_pos (by simpa using hd), List.map_cons,
        List.sum_cons]
      omega
    · rw [if_neg hd]
      have h := ih w st
      refine ⟨h.1, ?_⟩
      rw [h.2, List.filter_cons_of_neg (by simpa using hd)]

theorem verifyEntry_isSome (w : World) (e : List Char × List Char) :
    (verifyEntry w e).isSome =
      ((w.files (srcOfKey e.1)).isSome &&
        (w.files e.2 != w.files (srcOfKey e.1))) := by
  rw [verifyEntry]
  rcases hs : w.files (srcOfKey e.1) with _ | x
  · simp [file_hash, hs]
  · rcases hd : w.files e.2 with _ | y
    · simp [file_hash, hs, hd]
    · simp only [file_hash, hs, hd]
      by_cases hxy : x = y
      · subst hxy
        simp
      · have hbeq : ((some x == some y) : Bool) = false := by simpa using hxy
        have h1 : ¬ (y = x) := fun hyx => hxy hyx.symm
        have h2 : ((some y == some x) : Bool) = false := by simpa using h1
        have hne : ((some y != some x) : Bool) = true := by simp [bne, h2]
        simp only [hbeq, hne]
        simp
        exact hxy

/-- Claim C4: with the canonical source tree present, a verify run
writes nothing — the final filesystem is the initial one — and its
drift count is the number of manifest entries (over folders whose root
exists) whose destination differs from an existing source or is
missing while the source exists; the process exits 1 exactly when that
count is nonzero and 0 when it is zero. -/
theorem runAllFolders_verify (d : Bool) (w : World) :
    (runAllFolders d true w).1 = w ∧
    (runAllFolders d true w).2.drift =
      ((IDE_MANIFESTS.filter (fun p => w.dirs p.1)).map
        (fun p => p.2.countP (fun e => (verifyEntry w e).isSome))).sum := by
  have hfold := foldl_folders_verify d
    (List.insertionSort (fun x y => lexLe x.1 y.1 = true) IDE_MANIFESTS) w stats0
  have hperm := ((List.perm_insertionSort (fun x y => lexLe x.1 y.1 = true)
      IDE_MANIFESTS).filter (fun p => w.dirs p.1)).map
      (fun p => p.2.countP (fun e => (verifyEntry w e).isSome))
  constructor
  · exact hfold.1
  · rw [runAllFolders, hfold.2, hperm.sum_eq]
    simp [stats0]

theorem c4_verify_mode (w : World) (h : w.dirs CANONICAL = true) :
    (mainRun false true w).world = w ∧
    (mainRun false true w).stats.drift = specDriftCount w ∧
    (mainRun false true w).exitCode =
      (if specDriftCount w = 0 then 0 else 1) := by
  have hfun : (fun e : List Char × List Char => (verifyEntry w e).isSome) =
      (fun e : List Char × List Char => (w.files (srcOfKey e.1)).isSome &&
        (w.files e.2 != w.files (srcOfKey e.1))) := by
    funext e
    exact verifyEntry_isSome w e
  obtain ⟨h1, h2⟩ := runAllFolders_verify false w
  have h2s : (runAllFolders false true w).2.drift = specDriftCount w := by
    rw [h2, specDriftCount, countP_flatMap, hfun]
  have hm : mainRun false true w =
      (if 0 < (runAllFolders false true w).2.drift
        then ⟨(runAllFolders false true w).1, 1, (runAllFolders false true w).2⟩
        else ⟨(runAllFolders false true w).1, 0,
          (runAllFolders false true w).2⟩ : RunOut) := by
    rw [mainRun, h]
    rfl
  refine ⟨?_, ?_, ?_⟩
  · rw [hm]
    by_cases hz : 0 < (runAllFolders false true w).2.drift
    · simpa [hz] using h1
    · simpa [hz] using h1
  · rw [hm]
    by_cases hz : 0 < (runAllFolders false true w).2.drift
    · simpa [hz] using h2s
    · simpa [hz] using h2s
  · rw [hm, ← h2s]
    by_cases hz : (runAllFolders false true w).2.drift = 0
    · simp [hz]
    · have hpos : 0 < (runAllFolders false true w).2.drift :=
        Nat.pos_of_ne_zero hz
      simp [hz, hpos]

def w4 : World := ⟨fun _ => none, fun p => p == CANONICAL⟩

/-- Claim C4 theorem applied to a concrete world where only the
canonical root exists: no folder is visited, no drift is counted and
the process exits 0 with the filesystem untouched. -/
theorem c4_witness :
    (w4.dirs CANONICAL = true) ∧
    ((mainRun false true w4).world = w4 ∧
      (mainRun false true w4).stats.drift = specDriftCount w4 ∧
      (mainRun false true w4).exitCode =
        (if specDriftCount w4 = 0 then 0 else 1)) :=
  ⟨by decide, c4_verify_mode w4 (by decide)⟩

/-! ## Claim C10 -/

def w10 : World :=
  ⟨fun p => if p == ".cursor/skills/planning-with-files/examples.md".data then
      some "stale destination text".data
    else none,
   fun p => p == CANONICAL || p == ".cursor".data⟩

/-- Claim C10: a verify-mode manifest entry whose canonical source
does not exist reports nothing and adds no drift, whatever the state
of the destination; consequently the concrete world w10 — canonical
root present, .cursor folder present, every canonical source file
absent, one destination present with stale content — exits 0. -/
theorem c10_missing_source_no_drift :
    (∀ (w : World) (k d : List Char),
      w.files (srcOfKey k) = none → verifyEntry w (k, d) = none) ∧
    w10.files (srcOfKey "examples.md".data) = none ∧
    (w10.files ".cursor/skills/planning-with-files/examples.md".data).isSome
      = true ∧
    (mainRun false true w10).exitCode = 0 ∧
    (mainRun false true w10).stats.drift = 0 := by
  refine ⟨?_, by decide, by decide, by decide, by decide⟩
  intro w k d hsrc
  rw [verifyEntry]
  simp [file_hash, hsrc]

/-- The first part of the Claim C10 theorem applied to a concrete
entry of the .cursor manifest in the world w10. -/
theorem c10_witness :
    verifyEntry w10 ("examples.md".data,
      ".cursor/skills/planning-with-files/examples.md".data) = none :=
  c10_missing_source_no_drift.1 w10 "examples.md".data
    ".cursor/skills/planning-with-files/examples.md".data (by decide)
